import Mathlib

/-!
Verification development for the `squeeze` adaptive concurrency limiter.

The Rust source is shallowly embedded: durations are natural numbers of
nanoseconds, `f64` parameters and intermediate floating-point arithmetic are
modelled exactly over `ℚ`, machine integers (`usize`) are `Nat` with explicit
treatment of checked/saturating subtraction, and fallible or panicking code
paths return `Option`.
-/

namespace Squeeze

/-- Whether a job succeeded or failed as a result of congestion/overload.
From `src/limiter/mod.rs`, `enum Outcome`. -/
inductive Outcome where
  | success
  | overload
deriving DecidableEq, Repr

/-- `Outcome::overloaded_or` from `src/limiter/mod.rs`: keep `self` unless
`self` is `Success` and `other` is `Overload`. -/
def Outcome.overloaded_or (self other : Outcome) : Outcome :=
  match self, other with
  | .success, .overload => .overload
  | _, _ => self

/-- `Sample` from `src/limits/mod.rs`. Latency is in nanoseconds. -/
structure Sample where
  latency : Nat
  in_flight : Nat
  outcome : Outcome
deriving DecidableEq, Repr

/-- `MIN_SAMPLE_LATENCY` from `src/limits/defaults.rs`: 1 microsecond,
i.e. 1000 nanoseconds. -/
def MIN_SAMPLE_LATENCY : Nat := 1000

/-- `DEFAULT_MIN_LIMIT` from `src/limits/defaults.rs`. -/
def DEFAULT_MIN_LIMIT : Nat := 1

/-- `DEFAULT_MAX_LIMIT` from `src/limits/defaults.rs`. -/
def DEFAULT_MAX_LIMIT : Nat := 1000

/-- `Duration::MAX` in nanoseconds: `u64::MAX` seconds plus `10^9 - 1` extra
nanoseconds. -/
def durationMAX : Nat := (2 ^ 64 - 1) * 1000000000 + 999999999

/-- `Duration::as_secs_f64`, modelled exactly: nanoseconds over `10^9`. -/
def latencySecs (ns : Nat) : ℚ := (ns : ℚ) / 1000000000

/-- Rust's `clamp(lo, hi)` on unsigned integers (for `lo ≤ hi`). -/
def rustClamp (x lo hi : Nat) : Nat :=
  if x < lo then lo else if hi < x then hi else x

/-- Rust's `f64::clamp(lo, hi)`, modelled over `ℚ`. -/
def rustClampQ (x lo hi : ℚ) : ℚ :=
  if x < lo then lo else if hi < x then hi else x

/-! ## The default permit gate (`src/limiter/mod.rs`)

`DefaultLimiter` holds a tokio semaphore (its available permit count is
modelled by `GateState.available`), a shared in-flight counter, and a stored
scalar limit. -/

/-- Quiescent state of the permit gate: available semaphore permits and the
in-flight counter. -/
structure GateState where
  available : Nat
  in_flight : Nat
deriving DecidableEq, Repr

/-- `Fixed::update` from `src/limits/fixed.rs`: always returns the constant
limit, ignoring the sample. -/
def fixedUpdate (L : Nat) (_s : Sample) : Nat := L

/-- The synchronous effect of the reconciliation `match` in
`DefaultLimiter::release` (`src/limiter/mod.rs`): compares the controller's
`new_limit` with the stored `old_limit`.  On `Greater` it adds
`new_limit - old_limit` permits to the pool; on `Less` it leaves the pool
untouched and schedules a background task to acquire-and-forget
`old_limit - new_limit` permits; on `Equal` it does nothing. -/
structure ReleaseEffect where
  pool : Nat
  bgDiscard : Option Nat
deriving DecidableEq, Repr

/-- The reconciliation step of `DefaultLimiter::release`. -/
def reconcile (oldLimit newLimit pool : Nat) : ReleaseEffect :=
  if oldLimit < newLimit then ⟨pool + (newLimit - oldLimit), none⟩
  else if newLimit < oldLimit then ⟨pool, some (oldLimit - newLimit)⟩
  else ⟨pool, none⟩

/-- `u32::MAX`. -/
def U32_MAX : Nat := 2 ^ 32 - 1

/-- The `u32::value_from(old_limit - new_limit)
.expect("change in limit shouldn't be > u32::MAX")` conversion at the start
of the spawned shrink task in `DefaultLimiter::release`: the conversion
panics (modelled `none`) when the value exceeds `u32::MAX`. -/
def u32_value_from (n : Nat) : Option Nat :=
  if n ≤ U32_MAX then some n else none

/-- The body of the spawned background task in `DefaultLimiter::release`:
it first converts the limit difference to `u32` — a panic (`none`) above
`u32::MAX`, in which case the task dies and nothing is ever discarded —
then waits until `amount` permits are available, acquires them and calls
`permits.forget()`, permanently removing them from the pool.  `pool` is the
available-permit count when the acquisition completes; the inner `none`
stands for a task still blocked while fewer permits are available. -/
def bgDiscardRun (amount pool : Nat) : Option Nat :=
  match u32_value_from amount with
  | none => none
  | some amt => if amt ≤ pool then some (pool - amt) else none

/-- `DefaultLimiter::release` with `Some(outcome)`, for an arbitrary
controller update function: runs the update, swaps the stored limit and
reconciles the pool.  Returns the new stored limit and the pool effect. -/
def releaseWithOutcome (update : Sample → Nat) (oldLimit pool : Nat)
    (smp : Sample) : Nat × ReleaseEffect :=
  let newLimit := update smp
  (newLimit, reconcile oldLimit newLimit pool)

/-- One quiescent-point transition of a `DefaultLimiter` whose controller is
`Fixed::new(L)`.  Acquisition paths follow `try_acquire`/`acquire_timeout`
(a permit is consumed exactly when one is available; a timed-out or rejected
acquire consumes nothing; `Token::new` increments the in-flight counter).
Release paths follow `DefaultLimiter::release` (for `Fixed`,
`update` returns `L`, so reconciliation is the `Equal` branch) followed by
the token drop: `TokenInner`'s `Drop` decrements the in-flight counter and
dropping the `OwnedSemaphorePermit` returns one permit to the pool. -/
inductive FixedStep (L : Nat) : GateState → GateState → Prop where
  | tryAcquireOk (s : GateState) (h : 0 < s.available) :
      FixedStep L s ⟨s.available - 1, s.in_flight + 1⟩
  | tryAcquireNoPermits (s : GateState) (h : s.available = 0) :
      FixedStep L s s
  | acquireTimeoutOk (s : GateState) (h : 0 < s.available) :
      FixedStep L s ⟨s.available - 1, s.in_flight + 1⟩
  | acquireTimeoutExpired (s : GateState) :
      FixedStep L s s
  | releaseOutcome (s : GateState) (smp : Sample) (h : 0 < s.in_flight) :
      FixedStep L s
        ⟨(releaseWithOutcome (fixedUpdate L) L s.available smp).2.pool + 1,
          s.in_flight - 1⟩
  | releaseNone (s : GateState) (h : 0 < s.in_flight) :
      FixedStep L s ⟨s.available + 1, s.in_flight - 1⟩
  | tokenDrop (s : GateState) (h : 0 < s.in_flight) :
      FixedStep L s ⟨s.available + 1, s.in_flight - 1⟩

/-- The initial gate state from `DefaultLimiter::new`: the semaphore starts
with `limit_algo.limit()` permits and nothing in flight. -/
def GateState.init (L : Nat) : GateState := ⟨L, 0⟩

/-- States reachable by interleaving gate operations at quiescent points. -/
inductive FixedReach (L : Nat) : GateState → Prop where
  | init : FixedReach L (GateState.init L)
  | step {s t : GateState} (hr : FixedReach L s) (hs : FixedStep L s t) :
      FixedReach L t

/-! ## AIMD controller (`src/limits/aimd.rs`) -/

/-- Configuration of `Aimd`.  `f64` parameters are modelled over `ℚ`. -/
structure AimdCfg where
  min_limit : Nat
  max_limit : Nat
  decrease_factor : ℚ
  increase_by : Nat
  min_utilisation_threshold : ℚ
deriving DecidableEq, Repr

/-- The constraints enforced by `Aimd::new` and its builder methods:
`min_limit ≥ 1`, `min_limit ≤ initial_limit ≤ max_limit` (so
`min_limit ≤ max_limit`), `decrease_factor ∈ [0.5, 1.0)`, `increase_by > 0`
and `min_utilisation_threshold ∈ (0, 1)`. -/
def AimdCfg.wf (c : AimdCfg) : Prop :=
  1 ≤ c.min_limit ∧ c.min_limit ≤ c.max_limit ∧
  1/2 ≤ c.decrease_factor ∧ c.decrease_factor < 1 ∧
  0 < c.increase_by ∧
  0 < c.min_utilisation_threshold ∧ c.min_utilisation_threshold < 1

/-- `Aimd::new_with_initial_limit`'s configuration: default range `[1, 1000]`,
decrease factor `0.9`, increase `1`, utilisation threshold `0.8`. -/
def aimdDefaultCfg : AimdCfg :=
  ⟨DEFAULT_MIN_LIMIT, DEFAULT_MAX_LIMIT, 9/10, 1, 8/10⟩

/-- `multiplicative_decrease` from `src/limits/aimd.rs`: `limit × factor` in
`f64`, floored, then converted back to `usize` (the conversion truncates, an
identity on the already-floored value). -/
def multiplicative_decrease (limit : Nat) (factor : ℚ) : Nat :=
  (⌊(limit : ℚ) * factor⌋).toNat

/-- `Aimd::update` from `src/limits/aimd.rs`.  There is no latency-floor
check: the sample's latency is never read.  On `Success` the limit grows by
`increase_by` (clamped) exactly when `in_flight / limit` exceeds the
utilisation threshold; on `Overload` it multiplicatively decreases
(clamped). -/
def aimdUpdate (c : AimdCfg) (limit : Nat) (smp : Sample) : Nat :=
  match smp.outcome with
  | .success =>
    let utilisation : ℚ := (smp.in_flight : ℚ) / (limit : ℚ)
    if c.min_utilisation_threshold < utilisation then
      rustClamp (limit + c.increase_by) c.min_limit c.max_limit
    else
      limit
  | .overload =>
    rustClamp (multiplicative_decrease limit c.decrease_factor)
      c.min_limit c.max_limit

/-! ## Exponential smoothing (`src/moving_avg.rs`) -/

/-- `ExpSmoothed` from `src/moving_avg.rs`.  Durations are rationals of
nanoseconds. -/
structure ExpSmoothed where
  smoothing_factor : ℚ
  value : ℚ
  initial_sum : ℚ
  initial_count : Nat
deriving DecidableEq, Repr

/-- `ExpSmoothed::INITIAL_WARMUP_SAMPLES`. -/
def INITIAL_WARMUP_SAMPLES : Nat := 10

/-- `ExpSmoothed::new_with_window_size`: smoothing factor `2 / (k + 1)`. -/
def ExpSmoothed.newWithWindowSize (k : Nat) : ExpSmoothed :=
  ⟨2 / ((k : ℚ) + 1), 0, 0, 0⟩

/-- `ExpSmoothed::sample`.  After the warmup period the code computes
`self.value + (sample - self.value).mul_f64(factor)`; `sample - self.value`
is a checked `Duration` subtraction which panics when the new sample is
below the current value, modelled as `none`. -/
def ExpSmoothed.sample (e : ExpSmoothed) (d : ℚ) : Option (ExpSmoothed × ℚ) :=
  if e.initial_count < INITIAL_WARMUP_SAMPLES then
    let sum := e.initial_sum + d
    let cnt := e.initial_count + 1
    let v := sum / (cnt : ℚ)
    some ({ e with initial_sum := sum, initial_count := cnt, value := v }, v)
  else if d < e.value then none
  else
    let v := e.value + (d - e.value) * e.smoothing_factor
    some ({ e with value := v }, v)

/-- `ExpSmoothed::set`. -/
def ExpSmoothed.set (e : ExpSmoothed) (v : ℚ) : ExpSmoothed :=
  { e with value := v }

/-! ## Gradient controller (`src/limits/gradient.rs`) -/

/-- Limit range of `Gradient` (enforced by `Gradient::new` as for `Aimd`). -/
structure GradientCfg where
  min_limit : Nat
  max_limit : Nat
deriving DecidableEq, Repr

/-- Mutable state of `Gradient`: the smoothed long-window latency, the `f64`
limit shadow (`Inner.limit`) and the published integer limit. -/
structure GradientState where
  long_window_latency : ExpSmoothed
  limit_f : ℚ
  limit : Nat
deriving DecidableEq, Repr

/-- `Gradient::new`'s state for a given initial limit: a 500-sample
exponential window and both limit representations set to the initial
limit. -/
def gradientNew (initial : Nat) : GradientState :=
  ⟨ExpSmoothed.newWithWindowSize 500, (initial : ℚ), initial⟩

/-- `Gradient::update` from `src/limits/gradient.rs`.  Returns `none` when
the smoothed-average update panics (checked `Duration` subtraction), in
which case no state was mutated.  Constants: tolerance 2.0, smoothing 0.2,
increase 4.0, min utilisation 0.8, min gradient 0.9. -/
def gradientUpdate (c : GradientCfg) (st : GradientState) (smp : Sample) :
    Option (GradientState × Nat) :=
  if smp.latency < MIN_SAMPLE_LATENCY then some (st, st.limit)
  else
    match st.long_window_latency.sample ((smp.latency : ℚ)) with
    | none => none
    | some (exp1, long) =>
      let ratio := long / (smp.latency : ℚ)
      let exp2 := if 2 < ratio then exp1.set (long * (95/100)) else exp1
      let old_limit := st.limit_f
      let gradient := rustClampQ (2 * ratio) (1/2) 1
      let utilisation := (smp.in_flight : ℚ) / old_limit
      let increase : ℚ := if 8/10 < utilisation ∧ 9/10 < gradient then 4 else 0
      let new1 := old_limit * gradient + increase
      let new2 := old_limit * (1 - 1/5) + new1 * (1/5)
      let new3 := rustClampQ new2 (c.min_limit : ℚ) (c.max_limit : ℚ)
      let rounded := (⌊new3⌋).toNat
      some (⟨exp2, new3, rounded⟩, rounded)

/-! ## Vegas controller (`src/limits/vegas.rs`) -/

/-- Configuration of `Vegas`.  The default `alpha`/`beta` functions are
`3·max(1, log₁₀ L)` and `6·max(1, log₁₀ L)` computed in `f64`; those values
are irrational for most `L`, so the functions are kept as parameters of the
embedding (they are fields of the Rust struct).  For every `1 ≤ L ≤ 10` the
defaults are exactly the constants `3` and `6`. -/
structure VegasCfg where
  min_limit : Nat
  max_limit : Nat
  alpha : Nat → ℚ
  beta : Nat → ℚ

/-- `Vegas::new_with_initial_limit`'s configuration: it asserts only
`initial_limit > 0` and uses the default range `[1, 1000]`. -/
def vegasNewCfg (alpha beta : Nat → ℚ) : VegasCfg :=
  ⟨1, 1000, alpha, beta⟩

/-- Mutable state of `Vegas`: the published limit and the recorded baseline
latency (initially `Duration::MAX`). -/
structure VegasState where
  limit : Nat
  base_latency : Nat
deriving DecidableEq, Repr

/-- `Vegas::new_with_initial_limit`'s state: `base_latency` starts at
`Duration::MAX`. -/
def vegasNew (initial : Nat) : VegasState :=
  ⟨initial, durationMAX⟩

/-- `Vegas::update` from `src/limits/vegas.rs`.  Below the latency floor it
returns the current limit unchanged.  When the latency is below the recorded
baseline, the baseline is lowered and — the early `return` in the source is
commented out — the update continues with the new baseline.  `increment` is
`ilog10(limit).max(1)`, i.e. `max (Nat.log 10 limit) 1`. -/
def vegasUpdate (c : VegasCfg) (st : VegasState) (smp : Sample) :
    VegasState × Nat :=
  if smp.latency < MIN_SAMPLE_LATENCY then (st, st.limit)
  else
    let base := if smp.latency < st.base_latency then smp.latency
                else st.base_latency
    let actual_rate := (smp.in_flight : ℚ) / latencySecs smp.latency
    let extra_latency := latencySecs smp.latency - latencySecs base
    let estimated_queued_jobs := actual_rate * extra_latency
    let utilisation := (smp.in_flight : ℚ) / (st.limit : ℚ)
    let increment := max (Nat.log 10 st.limit) 1
    let l1 :=
      if smp.outcome = .overload then multiplicative_decrease st.limit (9/10)
      else if c.beta st.limit < estimated_queued_jobs then st.limit - increment
      else if estimated_queued_jobs < c.alpha st.limit ∧ 8/10 ≤ utilisation then
        st.limit + increment
      else st.limit
    let l2 := rustClamp l1 c.min_limit c.max_limit
    (⟨l2, base⟩, l2)

/-! ## Percentile aggregator (`src/aggregation.rs`) -/

/-- `Percentile` from `src/aggregation.rs`.  The
`BTreeMap<Duration, Vec<Sample>>` is modelled, flattened in key order, as a
list of samples sorted by latency in which samples of equal latency appear
in insertion order. -/
structure Percentile where
  percentile : ℚ
  overload : Outcome
  num_samples : Nat
  samples : List Sample
deriving DecidableEq, Repr

/-- `Percentile::new(p)` (after its `0 < p < 1` assertion). -/
def percentileNew (p : ℚ) : Percentile :=
  ⟨p, .success, 0, []⟩

/-- The effect of `self.samples.entry(sample.latency).or_default().push(sample)`
on the flattened map: the new sample is placed after every stored sample
with latency ≤ its own and before every one with strictly greater
latency. -/
def insertByLatency (s : Sample) : List Sample → List Sample
  | [] => [s]
  | t :: ts =>
    if t.latency ≤ s.latency then t :: insertByLatency s ts
    else s :: t :: ts

/-- `Percentile::percentile_index`:
`ceil(num_samples × percentile) − 1`, or `None` with no samples.  The `f64`
ceiling and the `usize` conversion are modelled over `ℚ`; the final `- 1` is
a `usize` subtraction, which cannot underflow for `p > 0` (the constructor's
assertion) since then the ceiling is at least 1. -/
def percentileIndex (st : Percentile) : Option Nat :=
  if st.num_samples = 0 then none
  else some ((⌈(st.num_samples : ℚ) * st.percentile⌉).toNat - 1)

/-- `Percentile::percentile_sample`: the flattened map entry at the
percentile index, if any. -/
def percentileSampleAt (st : Percentile) : Option Sample :=
  (percentileIndex st).bind fun idx => st.samples.get? idx

/-- `<Percentile as Aggregator>::sample`: merge the outcome pessimistically,
store the sample, and report the `(latency, in_flight)` of the sample at the
percentile index together with the merged outcome.  The
`expect("Sample should exist at expected index")` panic branch is modelled
by returning `none` in the second component. -/
def percentileSample (st : Percentile) (smp : Sample) :
    Percentile × Option Sample :=
  let ovl := st.overload.overloaded_or smp.outcome
  let samples := insertByLatency smp st.samples
  let st' : Percentile := ⟨st.percentile, ovl, st.num_samples + 1, samples⟩
  match percentileSampleAt st' with
  | none => (st', none)
  | some ps => (st', some ⟨ps.latency, ps.in_flight, ovl⟩)

/-- Feeding a list of samples to the aggregator in order, keeping the final
state. -/
def percentileRun (st : Percentile) (ss : List Sample) : Percentile :=
  ss.foldl (fun st s => (percentileSample st s).1) st

/-- The representation invariant of the `Percentile` aggregator state after
consuming the samples `ss` (in order): the configured percentile is
unchanged, `num_samples` counts the stored samples, the flattened sample
list is a latency-sorted permutation of the inputs, and the merged outcome
is `Overload` exactly when some input was. -/
def PercInv (p : ℚ) (ss : List Sample) (st : Percentile) : Prop :=
  st.percentile = p ∧
  st.num_samples = st.samples.length ∧
  st.samples.Perm ss ∧
  st.samples.Pairwise (fun a b => a.latency ≤ b.latency) ∧
  (st.overload = .overload ↔ ∃ x ∈ ss, x.outcome = .overload)

/-! ## Windowed wrapper (`src/limits/windowed.rs`) -/

/-- Configuration of `Windowed`: window duration bounds, minimum samples per
window, and the latency discard threshold (all durations in
nanoseconds). -/
structure WindowedCfg where
  min_window : Nat
  max_window : Nat
  min_samples : Nat
  min_latency_threshold : Nat
deriving DecidableEq, Repr

/-- The `Window` state: start instant, current duration, aggregator state
and the minimum latency observed in the current window. -/
structure WindowState (σ : Type) where
  start : Nat
  duration : Nat
  aggregator : σ
  min_latency : Nat

/-- The `Aggregator` trait capability: `sample` returns `none` on an
internal panic. -/
structure AggOps (σ : Type) where
  sample : σ → Sample → σ × Option Sample
  sample_size : σ → Nat
  reset : σ → σ

/-- The `Aggregator` impl of `Percentile`. -/
def percentileOps : AggOps Percentile :=
  ⟨percentileSample, Percentile.num_samples,
    fun st => ⟨st.percentile, .success, 0, []⟩⟩

/-- `Window::reset` from `src/limits/windowed.rs`, preserving the source's
statement order: `min_latency` is overwritten with `Duration::MAX` first,
and the new window duration is then computed from that already-reset field
(not from the minimum observed in the window that just ended). -/
def windowReset {σ : Type} (cfg : WindowedCfg) (ops : AggOps σ)
    (w : WindowState σ) (now : Nat) : WindowState σ :=
  let min_latency := durationMAX
  { min_latency := min_latency,
    aggregator := ops.reset w.aggregator,
    start := now,
    duration := rustClamp min_latency cfg.min_window cfg.max_window * 2 }

/-- `Windowed::new(...).with_min_samples(n)`'s window state at instant
`now`: the first window has the minimum duration and no observed
latency. -/
def windowInit {σ : Type} (cfg : WindowedCfg) (agg : σ) (now : Nat) :
    WindowState σ :=
  ⟨now, cfg.min_window, agg, durationMAX⟩

/-- `<Windowed as LimitAlgorithm>::update`, generic over the aggregator and
the inner controller (`inner` is the controller's `update`, `innerLimit` its
`limit()`; `ι` is its state).  `now` is the current instant; the rollover
condition `window.start.elapsed() >= window.duration` becomes
`duration ≤ now - start`.  `none` models a panic propagated from the
aggregator. -/
def windowedUpdate {σ ι : Type} (cfg : WindowedCfg) (ops : AggOps σ)
    (inner : ι → Sample → ι × Nat) (innerLimit : ι → Nat)
    (w : WindowState σ) (ist : ι) (now : Nat) (smp : Sample) :
    Option (WindowState σ × ι × Nat) :=
  if smp.latency < cfg.min_latency_threshold then some (w, ist, innerLimit ist)
  else
    let w1 : WindowState σ := { w with min_latency := min w.min_latency smp.latency }
    match ops.sample w1.aggregator smp with
    | (_, none) => none
    | (agg1, some agg_sample) =>
      let w2 : WindowState σ := { w1 with aggregator := agg1 }
      if cfg.min_samples ≤ ops.sample_size agg1 ∧ w2.duration ≤ now - w2.start then
        let w3 := windowReset cfg ops w2 now
        let r := inner ist agg_sample
        some (w3, r.1, r.2)
      else
        some (w2, ist, innerLimit ist)

/-! ## Partitioned limiter (`src/limiter/partitioning.rs`) -/

/-- `fractional_limit`: `ceil(limit × fraction)` computed in `f64`,
converted to `usize` (truncation, identity on the already-ceiled value). -/
def fractional_limit (limit : Nat) (fraction : ℚ) : Nat :=
  (⌈(limit : ℚ) * fraction⌉).toNat

/-- `PartitionState::BUFFER_FRACTION`. -/
def BUFFER_FRACTION : ℚ := 1/10

/-- `PartitionState::spare`: the buffer is `ceil(partition_limit × 0.1)`;
then `(partition_limit - in_flight).saturating_sub(buffer)`.  The first
subtraction is an unchecked `usize` subtraction: when
`in_flight > partition_limit` it underflows (panicking in debug builds,
wrapping to a huge value in release builds), modelled as `none`.  The outer
`saturating_sub` is `Nat` subtraction. -/
def partitionSpare (total_limit : Nat) (fraction : ℚ) (in_flight : Nat) :
    Option Nat :=
  let partition_limit := fractional_limit total_limit fraction
  let buffer := (⌈(partition_limit : ℚ) * BUFFER_FRACTION⌉).toNat
  if in_flight ≤ partition_limit then
    some (partition_limit - in_flight - buffer)
  else none

/-- `Scheduler::spare`: the fold of the per-partition spares (a partition
panic propagates). -/
def schedulerSpare (total_limit : Nat) (parts : List (ℚ × Nat)) : Option Nat :=
  parts.foldl
    (fun acc p => acc.bind fun t => (partitionSpare total_limit p.1 p.2).map (t + ·))
    (some 0)

/-- Modelled from the spec (for comparison with `partitionSpare` and
`schedulerSpare`): the claimed spare formula, the sum over all partitions of
`max(0, partition_limit − partition_in_flight − buffer)` with
`buffer = ⌈partition_limit × 0.1⌉` (`Nat` subtraction is exactly the
`max(0, ·)` of the integer difference). -/
def spareSpec (total_limit : Nat) (parts : List (ℚ × Nat)) : Nat :=
  (parts.map (fun p =>
    let partition_limit := fractional_limit total_limit p.1
    let buffer := (⌈(partition_limit : ℚ) * BUFFER_FRACTION⌉).toNat
    partition_limit - p.2 - buffer)).sum

/-- Shared state of a set of partitioned limiters over one `DefaultLimiter`
with a `Fixed` controller: per-partition in-flight counters and the shared
semaphore's available permits. -/
structure PartState where
  in_flights : List Nat
  available : Nat
deriving DecidableEq, Repr

/-- `PartitionedLimiter::try_acquire` for partition `idx` of a gate whose
controller is `Fixed::new(total_limit)`.  The admission test is
`in_flight < partition_limit || spare > 0` (the `||` short-circuits, so the
spare — and any panic inside it — is only computed when the first test
fails).  On admission, the inner `try_acquire` consumes a permit when one is
available and `Token::for_partition` increments the partition's in-flight
counter.  Returns `none` on panic, otherwise the new state and whether a
token was issued. -/
def partTryAcquire (total_limit : Nat) (fractions : List ℚ) (st : PartState)
    (idx : Nat) : Option (PartState × Bool) :=
  let fraction := fractions.getD idx 0
  let in_flight := st.in_flights.getD idx 0
  let canAdmit : Option Bool :=
    if in_flight < fractional_limit total_limit fraction then some true
    else (schedulerSpare total_limit (fractions.zip st.in_flights)).map (0 < ·)
  canAdmit.bind fun ok =>
    if ok then
      if 0 < st.available then
        some (⟨st.in_flights.set idx (in_flight + 1), st.available - 1⟩, true)
      else some (st, false)
    else some (st, false)

theorem reconcile_self (L pool : Nat) : reconcile L L pool = ⟨pool, none⟩ := by
  simp [reconcile]

theorem fixedReach_sum {L : Nat} {s : GateState} (h : FixedReach L s) :
    s.available + s.in_flight = L := by
  induction h with
  | init => simp [GateState.init]
  | step _ hs ih =>
    cases hs with
    | tryAcquireOk h => simpa using by omega
    | tryAcquireNoPermits h => exact ih
    | acquireTimeoutOk h => simpa using by omega
    | acquireTimeoutExpired => exact ih
    | releaseOutcome smp h =>
      simp only [releaseWithOutcome, fixedUpdate, reconcile_self]
      omega
    | releaseNone h => simpa using by omega
    | tokenDrop h => simpa using by omega

/-- Claim C1: for a `DefaultLimiter` constructed with a `Fixed` controller of
limit `L`, every interleaving of `try_acquire`, `acquire_timeout`, `release`
and token drops preserves, at every quiescent point, both
`0 ≤ in_flight ≤ L` and `available + in_flight = L`. -/
theorem fixed_gate_invariant (L : Nat) (s : GateState) (h : FixedReach L s) :
    s.in_flight ≤ L ∧ s.available + s.in_flight = L := by
  have hsum := fixedReach_sum h
  omega

/-- Witness for C1: a concrete three-operation trace at `L = 2`. -/
theorem fixed_gate_invariant_witness :
    let s : GateState := ⟨1, 1⟩
    s.in_flight ≤ 2 ∧ s.available + s.in_flight = 2 := by
  have hreach : FixedReach 2 ⟨1, 1⟩ := by
    have h0 : FixedReach 2 (GateState.init 2) := FixedReach.init
    have h1 : FixedReach 2 ⟨1, 1⟩ :=
      FixedReach.step h0 (FixedStep.tryAcquireOk ⟨2, 0⟩ (by decide))
    have h2 : FixedReach 2 ⟨0, 2⟩ :=
      FixedReach.step h1 (FixedStep.acquireTimeoutOk ⟨1, 1⟩ (by decide))
    exact FixedReach.step h2
      (FixedStep.releaseOutcome ⟨0, 2⟩ ⟨2000000, 2, .success⟩ (by decide))
  exact fixed_gate_invariant 2 ⟨1, 1⟩ hreach

/-- Claim C2 (amended): when `release` is called with `Some(outcome)` and
the controller's update returns `new_limit` while the gate stored
`old_limit`: if `new_limit > old_limit`, exactly `new_limit − old_limit`
permits are added to the pool before `release` returns and no background
task is scheduled; if `new_limit < old_limit`, the pool is untouched when
`release` returns and a background task is scheduled — when the difference
is at most `u32::MAX`, the task acquires `old_limit − new_limit` permits
once available and permanently discards them (they are forgotten, never
credited back); when the difference exceeds `u32::MAX`, the task panics at
the `u32` conversion and discards nothing; if the limits are equal, the
pool is unchanged. -/
theorem release_reconciliation (update : Sample → Nat) (oldLimit pool : Nat)
    (smp : Sample) :
    (oldLimit < update smp →
      releaseWithOutcome update oldLimit pool smp =
        (update smp, ⟨pool + (update smp - oldLimit), none⟩)) ∧
    (update smp < oldLimit →
      releaseWithOutcome update oldLimit pool smp =
        (update smp, ⟨pool, some (oldLimit - update smp)⟩) ∧
      (oldLimit - update smp ≤ U32_MAX →
        ∀ avail, oldLimit - update smp ≤ avail →
          bgDiscardRun (oldLimit - update smp) avail =
            some (avail - (oldLimit - update smp))) ∧
      (U32_MAX < oldLimit - update smp →
        ∀ avail, bgDiscardRun (oldLimit - update smp) avail = none)) ∧
    (update smp = oldLimit →
      releaseWithOutcome update oldLimit pool smp =
        (oldLimit, ⟨pool, none⟩)) := by
  refine ⟨fun h => ?_,
    fun h => ⟨?_, fun hle avail havail => ?_, fun hgt avail => ?_⟩,
    fun h => ?_⟩
  · simp only [releaseWithOutcome, reconcile, if_pos h]
  · have h' : ¬ oldLimit < update smp := by omega
    simp only [releaseWithOutcome, reconcile, if_neg h', if_pos h]
  · simp only [bgDiscardRun, u32_value_from, if_pos hle, if_pos havail]
  · simp only [bgDiscardRun, u32_value_from, if_neg (not_le.mpr hgt)]
  · simp only [releaseWithOutcome, reconcile, h, lt_self_iff_false, if_false]

/-- Witness for C2: growth by 5 at `old_limit = 10`; shrink by 6 with the
background task discarding from a pool of 7; a shrink by 5 × 10⁹ whose
background task panics at the `u32` conversion and discards nothing; and
the unchanged case. -/
theorem release_reconciliation_witness :
    releaseWithOutcome (fun _ => 15) 10 3 ⟨2000000, 1, .success⟩ =
      (15, ⟨8, none⟩) ∧
    (releaseWithOutcome (fun _ => 4) 10 3 ⟨2000000, 1, .success⟩ =
        (4, ⟨3, some 6⟩) ∧
      bgDiscardRun 6 7 = some 1) ∧
    bgDiscardRun 5000000000 7 = none ∧
    releaseWithOutcome (fun _ => 10) 10 3 ⟨2000000, 1, .success⟩ =
      (10, ⟨3, none⟩) := by
  refine ⟨?_, ⟨?_, ?_⟩, ?_, ?_⟩
  · exact (release_reconciliation (fun _ => 15) 10 3 ⟨2000000, 1, .success⟩).1
      (by decide)
  · exact ((release_reconciliation (fun _ => 4) 10 3
      ⟨2000000, 1, .success⟩).2.1 (by decide)).1
  · exact ((release_reconciliation (fun _ => 4) 10 3
      ⟨2000000, 1, .success⟩).2.1 (by decide)).2.1 (by decide) 7 (by decide)
  · exact ((release_reconciliation (fun _ => 0) 5000000000 3
      ⟨2000000, 1, .success⟩).2.1 (by decide)).2.2 (by decide) 7
  · exact (release_reconciliation (fun _ => 10) 10 3
      ⟨2000000, 1, .success⟩).2.2 rfl

/-- Counterexample to C2 as stated: the claim says a shrink always
schedules a task that acquires `old_limit − new_limit` permits and discards
them, but the task first converts the difference to `u32` and panics above
`u32::MAX`.  Reachable via the public API:
`Aimd::new(10^10, 1..=10^10).decrease_factor(0.5)` and one `Overload`
release halve the limit from 10¹⁰ to 5 × 10⁹ — a difference above
`u32::MAX` — and the background task discards nothing even with 5 × 10⁹
permits available. -/
theorem release_discard_overflow_counterexample :
    aimdUpdate ⟨1, 10000000000, 1/2, 1, 8/10⟩ 10000000000
      ⟨2000000, 1, .overload⟩ = 5000000000 ∧
    releaseWithOutcome
        (aimdUpdate ⟨1, 10000000000, 1/2, 1, 8/10⟩ 10000000000)
        10000000000 0 ⟨2000000, 1, .overload⟩ =
      (5000000000, ⟨0, some 5000000000⟩) ∧
    U32_MAX < 10000000000 - 5000000000 ∧
    bgDiscardRun 5000000000 5000000000 = none := by
  have h1 : aimdUpdate ⟨1, 10000000000, 1/2, 1, 8/10⟩ 10000000000
      ⟨2000000, 1, .overload⟩ = 5000000000 := by
    simp only [aimdUpdate, multiplicative_decrease]
    rw [show ((10000000000 : ℕ) : ℚ) * (1/2) = 5000000000 by norm_num]
    rw [show (⌊(5000000000 : ℚ)⌋ : ℤ) = 5000000000 by norm_num]
    decide
  refine ⟨h1, ?_, by decide, by decide⟩
  simp only [releaseWithOutcome, reconcile, h1]
  decide

theorem rustClamp_eq_max_min (x lo hi : Nat) (h : lo ≤ hi) :
    rustClamp x lo hi = max lo (min x hi) := by
  unfold rustClamp
  split_ifs <;> omega

/-- Claim C5: AIMD's `update` on a `Success` sample increases the limit by
`increase_by`, clamped to `[min_limit, max_limit]`, if and only if
`in_flight / limit` exceeds `min_utilisation_threshold`, and otherwise
leaves it unchanged; on an `Overload` sample it sets the limit to
`⌊limit × decrease_factor⌋` clamped to the range, so an `Overload` sample at
`limit = min_limit` leaves the limit at `min_limit`. -/
theorem aimd_update_spec (c : AimdCfg) (hwf : c.wf) (limit : Nat)
    (smp : Sample) :
    (smp.outcome = .success →
      (c.min_utilisation_threshold < (smp.in_flight : ℚ) / (limit : ℚ) →
        aimdUpdate c limit smp =
          rustClamp (limit + c.increase_by) c.min_limit c.max_limit) ∧
      ((smp.in_flight : ℚ) / (limit : ℚ) ≤ c.min_utilisation_threshold →
        aimdUpdate c limit smp = limit)) ∧
    (smp.outcome = .overload →
      aimdUpdate c limit smp =
        rustClamp (⌊(limit : ℚ) * c.decrease_factor⌋).toNat
          c.min_limit c.max_limit) ∧
    (smp.outcome = .overload → limit = c.min_limit →
      aimdUpdate c limit smp = c.min_limit) := by
  obtain ⟨hmin1, hminmax, hf1, hf2, hinc, ht1, ht2⟩ := hwf
  obtain ⟨lat, inflight, oc⟩ := smp
  refine ⟨fun hoc => ⟨fun hutil => ?_, fun hutil => ?_⟩,
    fun hoc => ?_, fun hoc hlim => ?_⟩
  · cases oc with
    | success => simp only [aimdUpdate]; rw [if_pos hutil]
    | overload => simp at hoc
  · cases oc with
    | success => simp only [aimdUpdate]; rw [if_neg (not_lt.mpr hutil)]
    | overload => simp at hoc
  · cases oc with
    | success => simp at hoc
    | overload => simp only [aimdUpdate, multiplicative_decrease]
  · cases oc with
    | success => simp at hoc
    | overload =>
      subst hlim
      have hle : (⌊(c.min_limit : ℚ) * c.decrease_factor⌋).toNat ≤ c.min_limit := by
        have h1 : (c.min_limit : ℚ) * c.decrease_factor ≤ (c.min_limit : ℚ) := by
          calc (c.min_limit : ℚ) * c.decrease_factor
              ≤ (c.min_limit : ℚ) * 1 :=
                mul_le_mul_of_nonneg_left (le_of_lt hf2) (by positivity)
            _ = (c.min_limit : ℚ) := mul_one _
        have h2 : ⌊(c.min_limit : ℚ) * c.decrease_factor⌋ ≤ (c.min_limit : ℤ) := by
          have h3 := Int.floor_le_floor h1
          rwa [Int.floor_natCast] at h3
        exact Int.toNat_le.mpr h2
      simp only [aimdUpdate, multiplicative_decrease]
      rw [rustClamp_eq_max_min _ _ _ hminmax]
      omega

/-- Witness for C5: the default AIMD configuration at limit 10 — additive
increase at utilisation 0.9, no change at utilisation 0.1, multiplicative
decrease to 9, and an `Overload` at the minimum limit staying there. -/
theorem aimd_update_spec_witness :
    aimdUpdate aimdDefaultCfg 10 ⟨2000000, 9, .success⟩ = 11 ∧
    aimdUpdate aimdDefaultCfg 10 ⟨2000000, 1, .success⟩ = 10 ∧
    aimdUpdate aimdDefaultCfg 10 ⟨2000000, 9, .overload⟩ = 9 ∧
    aimdUpdate aimdDefaultCfg 1 ⟨2000000, 1, .overload⟩ = 1 := by
  have hwf : aimdDefaultCfg.wf := by
    unfold AimdCfg.wf aimdDefaultCfg DEFAULT_MIN_LIMIT DEFAULT_MAX_LIMIT
    norm_num
  refine ⟨?_, ?_, ?_, ?_⟩
  · have h := ((aimd_update_spec aimdDefaultCfg hwf 10
      ⟨2000000, 9, .success⟩).1 rfl).1 (by norm_num [aimdDefaultCfg])
    rw [h]; decide
  · exact ((aimd_update_spec aimdDefaultCfg hwf 10
      ⟨2000000, 1, .success⟩).1 rfl).2 (by norm_num [aimdDefaultCfg])
  · have h := (aimd_update_spec aimdDefaultCfg hwf 10
      ⟨2000000, 9, .overload⟩).2.1 rfl
    rw [h]
    rw [show ((10 : ℕ) : ℚ) * aimdDefaultCfg.decrease_factor = 9 by
      norm_num [aimdDefaultCfg]]
    rw [show (⌊(9 : ℚ)⌋ : ℤ) = 9 by norm_num]
    decide
  · exact (aimd_update_spec aimdDefaultCfg hwf 1
      ⟨2000000, 1, .overload⟩).2.2 rfl rfl

/-- Claim C4 (amended): `Fixed`, `Gradient` and `Vegas` return the current
limit, with no state change, for every sample whose latency is below the
1 µs floor, including `Overload` samples.  (`Aimd::update` performs no such
check; see the counterexample.) -/
theorem low_latency_sample_skipped :
    (∀ (L : Nat) (smp : Sample), smp.latency < MIN_SAMPLE_LATENCY →
      fixedUpdate L smp = L) ∧
    (∀ (c : GradientCfg) (st : GradientState) (smp : Sample),
      smp.latency < MIN_SAMPLE_LATENCY →
      gradientUpdate c st smp = some (st, st.limit)) ∧
    (∀ (c : VegasCfg) (st : VegasState) (smp : Sample),
      smp.latency < MIN_SAMPLE_LATENCY →
      vegasUpdate c st smp = (st, st.limit)) := by
  refine ⟨fun _ _ _ => rfl, fun c st smp h => ?_, fun c st smp h => ?_⟩
  · simp only [gradientUpdate, if_pos h]
  · simp only [vegasUpdate, if_pos h]

/-- Witness for C4: a 500 ns `Overload` sample leaves each of `Fixed(7)`,
`Gradient(10)` and `Vegas(10)` untouched. -/
theorem low_latency_sample_skipped_witness :
    fixedUpdate 7 ⟨500, 1, .overload⟩ = 7 ∧
    gradientUpdate ⟨1, 1000⟩ (gradientNew 10) ⟨500, 1, .overload⟩ =
      some (gradientNew 10, 10) ∧
    vegasUpdate (vegasNewCfg (fun _ => 3) (fun _ => 6)) (vegasNew 10)
      ⟨500, 1, .overload⟩ = (vegasNew 10, 10) := by
  refine ⟨low_latency_sample_skipped.1 7 _ (by decide),
    low_latency_sample_skipped.2.1 ⟨1, 1000⟩ (gradientNew 10) _ (by decide),
    low_latency_sample_skipped.2.2 (vegasNewCfg (fun _ => 3) (fun _ => 6))
      (vegasNew 10) _ (by decide)⟩

/-- Counterexample to C4 as stated: AIMD processes a 500 ns `Overload`
sample normally — the limit drops from 10 to 9 instead of staying
unchanged.  `Aimd::update` never reads the sample's latency. -/
theorem aimd_ignores_latency_floor :
    aimdUpdate aimdDefaultCfg 10 ⟨500, 1, .overload⟩ = 9 ∧
    (500 : Nat) < MIN_SAMPLE_LATENCY ∧ (9 : Nat) ≠ 10 := by
  refine ⟨?_, by decide, by decide⟩
  simp only [aimdUpdate, multiplicative_decrease]
  rw [show ((10 : ℕ) : ℚ) * aimdDefaultCfg.decrease_factor = 9 by
    norm_num [aimdDefaultCfg]]
  rw [show (⌊(9 : ℚ)⌋ : ℤ) = 9 by norm_num]
  decide

/-- Claim C3 (code bug): `Vegas::new_with_initial_limit` asserts only
`initial_limit > 0` — unlike `Aimd::new` and `Gradient::new`, it never
checks the initial limit against `[min_limit, max_limit]` = `[1, 1000]`.
Constructed at initial limit 5000, `limit()` is 5000 > `max_limit` = 1000,
and a below-floor sample leaves it there, for any `alpha`/`beta`
thresholds. -/
theorem vegas_limit_escapes_range (alpha beta : Nat → ℚ) :
    (vegasNew 5000).limit = 5000 ∧
    (vegasUpdate (vegasNewCfg alpha beta) (vegasNew 5000)
      ⟨500, 1, .success⟩).2 = 5000 ∧
    (vegasNewCfg alpha beta).max_limit = 1000 ∧ ¬ (5000 : Nat) ≤ 1000 := by
  exact ⟨rfl, rfl, rfl, by decide⟩

/-- Claim C6 (amended): whenever Vegas's `update` receives a sample at or
above the 1 µs floor whose latency is strictly below the recorded
`base_latency`, it sets `base_latency` to that latency and then continues
the normal update with the new baseline (the early `return` in the source
is commented out).  The estimated queueing is then exactly zero, so the
limit is unchanged unless the outcome is `Overload` (multiplicative
decrease by 0.9) or utilisation is at least 0.8 (additive increase by
`max(1, ilog10 limit)`); the result is clamped as usual.  Stated for any
positive `alpha` threshold and nonnegative `beta` threshold (the defaults
are at least 3 and 6 respectively). -/
theorem vegas_base_latency_case (c : VegasCfg) (st : VegasState)
    (smp : Sample) (hmin : MIN_SAMPLE_LATENCY ≤ smp.latency)
    (hbase : smp.latency < st.base_latency)
    (halpha : 0 < c.alpha st.limit) (hbeta : 0 ≤ c.beta st.limit) :
    vegasUpdate c st smp =
      (⟨rustClamp
          (if smp.outcome = .overload then
            multiplicative_decrease st.limit (9/10)
           else if 8/10 ≤ (smp.in_flight : ℚ) / (st.limit : ℚ) then
            st.limit + max (Nat.log 10 st.limit) 1
           else st.limit)
          c.min_limit c.max_limit,
        smp.latency⟩,
       rustClamp
          (if smp.outcome = .overload then
            multiplicative_decrease st.limit (9/10)
           else if 8/10 ≤ (smp.in_flight : ℚ) / (st.limit : ℚ) then
            st.limit + max (Nat.log 10 st.limit) 1
           else st.limit)
          c.min_limit c.max_limit) := by
  have h1 : ¬ smp.latency < MIN_SAMPLE_LATENCY := not_lt.mpr hmin
  have h2 : ¬ c.beta st.limit < 0 := not_lt.mpr hbeta
  simp only [vegasUpdate, h1, if_false, hbase, if_true, sub_self, mul_zero,
    h2, halpha, true_and]

/-- Witness for C6: Vegas at limit 10 with baseline 50 ms receiving a 25 ms
sample at full utilisation — the baseline drops to 25 ms and the limit
grows to 11 (the exact default thresholds at limit 10 are `alpha = 3` and
`beta = 6`). -/
theorem vegas_base_latency_case_witness :
    vegasUpdate (vegasNewCfg (fun _ => 3) (fun _ => 6)) ⟨10, 50000000⟩
      ⟨25000000, 10, .success⟩ = (⟨11, 25000000⟩, 11) := by
  have hlog : Nat.log 10 10 = 1 :=
    Nat.log_eq_of_pow_le_of_lt_pow (by norm_num) (by norm_num)
  have hso : ¬ (Outcome.success = Outcome.overload) := by decide
  rw [vegas_base_latency_case (vegasNewCfg (fun _ => 3) (fun _ => 6))
    ⟨10, 50000000⟩ ⟨25000000, 10, .success⟩ (by decide) (by decide)
    (by norm_num [vegasNewCfg]) (by norm_num [vegasNewCfg])]
  norm_num [hlog, hso, rustClamp, vegasNewCfg]

/-- Counterexample to C6 as stated: starting from
`Vegas::new_with_initial_limit(10)`, a first 50 ms sample records the
baseline and keeps the limit at 10; a second 25 ms sample at in-flight 10 —
below the recorded 50 ms baseline — changes the limit to 11 rather than
leaving it unchanged. -/
theorem vegas_base_latency_counterexample :
    (vegasUpdate (vegasNewCfg (fun _ => 3) (fun _ => 6)) (vegasNew 10)
        ⟨50000000, 1, .success⟩) = (⟨10, 50000000⟩, 10) ∧
    MIN_SAMPLE_LATENCY ≤ 25000000 ∧ (25000000 : Nat) < 50000000 ∧
    (vegasUpdate (vegasNewCfg (fun _ => 3) (fun _ => 6)) ⟨10, 50000000⟩
        ⟨25000000, 10, .success⟩).2 = 11 ∧
    (11 : Nat) ≠ 10 := by
  have hlog : Nat.log 10 10 = 1 :=
    Nat.log_eq_of_pow_le_of_lt_pow (by norm_num) (by norm_num)
  have hso : ¬ (Outcome.success = Outcome.overload) := by decide
  refine ⟨?_, by decide, by decide, ?_, by decide⟩
  · norm_num [vegasUpdate, vegasNew, vegasNewCfg, MIN_SAMPLE_LATENCY,
      durationMAX, latencySecs, rustClamp, multiplicative_decrease, hlog, hso]
  · norm_num [vegasUpdate, vegasNewCfg, MIN_SAMPLE_LATENCY,
      latencySecs, rustClamp, multiplicative_decrease, hlog, hso]

/-- Claim C7 (code bug): when the windowed wrapper rolls a window over,
`Window::reset` overwrites `min_latency` with `Duration::MAX` *before*
computing the next duration from it, so the next duration is always
`clamp(Duration::MAX, min_window, max_window) × 2 = max_window × 2`,
regardless of the minimum latency observed in the window that just ended —
contrary to the claimed `clamp(m, min_window, max_window) × 2`.  Concretely:
bounds `[1 µs, 1 s]`, `min_samples = 1`, one 5 ms sample rolling the window
over — the code sets the next duration to 2 s, while the claimed formula
gives 10 ms. -/
theorem windowed_next_duration_ignores_observed_min :
    windowedUpdate ⟨1000, 1000000000, 1, 1000⟩ percentileOps
        (fun (u : Unit) smp => (u, fixedUpdate 10 smp)) (fun _ => 10)
        (windowInit ⟨1000, 1000000000, 1, 1000⟩ (percentileNew (1/2)) 0) ()
        1000000000 ⟨5000000, 1, .success⟩ =
      some (⟨1000000000, 2000000000, ⟨1/2, .success, 0, []⟩, durationMAX⟩,
        (), 10) ∧
    rustClamp 5000000 1000 1000000000 * 2 = 10000000 ∧
    (2000000000 : Nat) ≠ 10000000 := by
  have hceil : (⌈((1 : ℕ) : ℚ) * (1/2)⌉ : ℤ) = 1 := by
    rw [show ((1 : ℕ) : ℚ) * (1/2) = 1/2 by norm_num]
    rw [Int.ceil_eq_iff]
    constructor <;> norm_num
  have hceil2 : (⌈(2⁻¹ : ℚ)⌉ : ℤ) = 1 := by
    rw [Int.ceil_eq_iff]
    constructor <;> norm_num
  have hps : percentileSample (percentileNew (1/2)) ⟨5000000, 1, .success⟩ =
      (⟨1/2, .success, 1, [⟨5000000, 1, .success⟩]⟩,
        some ⟨5000000, 1, .success⟩) := by
    simp [percentileSample, percentileSampleAt, percentileIndex,
      insertByLatency, percentileNew, Outcome.overloaded_or, hceil, hceil2]
  refine ⟨?_, by norm_num [rustClamp], by decide⟩
  norm_num [windowedUpdate, windowInit, percentileOps, hps, windowReset,
    rustClamp, fixedUpdate, durationMAX]

theorem insertByLatency_perm (s : Sample) (l : List Sample) :
    (insertByLatency s l).Perm (s :: l) := by
  induction l with
  | nil => exact List.Perm.refl _
  | cons t ts ih =>
    rw [insertByLatency]
    split
    · exact (ih.cons t).trans (List.Perm.swap s t ts)
    · exact List.Perm.refl _

theorem insertByLatency_sorted (s : Sample) {l : List Sample}
    (h : l.Pairwise (fun a b => a.latency ≤ b.latency)) :
    (insertByLatency s l).Pairwise (fun a b => a.latency ≤ b.latency) := by
  induction l with
  | nil => simp [insertByLatency]
  | cons t ts ih =>
    rw [List.pairwise_cons] at h
    obtain ⟨ht, hts⟩ := h
    rw [insertByLatency]
    split
    case isTrue hle =>
      rw [List.pairwise_cons]
      refine ⟨fun x hx => ?_, ih hts⟩
      have hx' : x ∈ s :: ts := (insertByLatency_perm s ts).mem_iff.mp hx
      rcases List.mem_cons.mp hx' with rfl | hmem
      · exact hle
      · exact ht x hmem
    case isFalse hgt =>
      rw [List.pairwise_cons]
      refine ⟨fun x hx => ?_, List.pairwise_cons.mpr ⟨ht, hts⟩⟩
      rcases List.mem_cons.mp hx with rfl | hmem
      · exact le_of_lt (lt_of_not_le hgt)
      · exact le_trans (le_of_lt (lt_of_not_le hgt)) (ht x hmem)

theorem percentileSample_eq (st : Percentile) (smp : Sample) :
    percentileSample st smp =
      (⟨st.percentile, st.overload.overloaded_or smp.outcome,
          st.num_samples + 1, insertByLatency smp st.samples⟩,
        (percentileSampleAt
            ⟨st.percentile, st.overload.overloaded_or smp.outcome,
              st.num_samples + 1, insertByLatency smp st.samples⟩).map
          (fun ps => ⟨ps.latency, ps.in_flight,
            st.overload.overloaded_or smp.outcome⟩)) := by
  simp only [percentileSample]
  split <;> rename_i heq <;> simp [heq]

theorem overloaded_or_eq_overload (a b : Outcome) :
    a.overloaded_or b = .overload ↔ (a = .overload ∨ b = .overload) := by
  cases a <;> cases b <;> simp [Outcome.overloaded_or]

theorem percInv_new (p : ℚ) : PercInv p [] (percentileNew p) := by
  simp [PercInv, percentileNew]

theorem percInv_step {p : ℚ} {ss : List Sample} {st : Percentile}
    (h : PercInv p ss st) (smp : Sample) :
    PercInv p (ss ++ [smp]) (percentileSample st smp).1 := by
  obtain ⟨h1, h2, h3, h4, h5⟩ := h
  rw [percentileSample_eq]
  refine ⟨h1, ?_, ?_, insertByLatency_sorted smp h4, ?_⟩
  · simp [(insertByLatency_perm smp st.samples).length_eq, h2]
  · exact (insertByLatency_perm smp st.samples).trans
      ((h3.cons smp).trans (List.perm_append_singleton smp ss).symm)
  · show st.overload.overloaded_or smp.outcome = .overload ↔ _
    rw [overloaded_or_eq_overload, h5]
    constructor
    · rintro (⟨x, hx, ho⟩ | ho)
      · exact ⟨x, List.mem_append.mpr (Or.inl hx), ho⟩
      · exact ⟨smp, List.mem_append.mpr (Or.inr (List.mem_singleton.mpr rfl)), ho⟩
    · rintro ⟨x, hx, ho⟩
      rcases List.mem_append.mp hx with hmem | hmem
      · exact Or.inl ⟨x, hmem, ho⟩
      · rw [List.mem_singleton.mp hmem] at ho
        exact Or.inr ho

theorem percInv_run {p : ℚ} (ss : List Sample) :
    ∀ {acc : List Sample} {st : Percentile}, PercInv p acc st →
      PercInv p (acc ++ ss) (percentileRun st ss) := by
  induction ss with
  | nil => intro acc st h; simpa [percentileRun] using h
  | cons s rest ih =>
    intro acc st h
    have h2 := ih (percInv_step h s)
    have hrun : percentileRun st (s :: rest) =
        percentileRun (percentileSample st s).1 rest := rfl
    rw [hrun]
    simpa [List.append_assoc] using h2

theorem percentileCeil_bounds {p : ℚ} (hp0 : 0 < p) (hp1 : p < 1) {n : Nat}
    (hn : 1 ≤ n) :
    1 ≤ (⌈(n : ℚ) * p⌉ : ℤ) ∧ (⌈(n : ℚ) * p⌉ : ℤ) ≤ (n : ℤ) := by
  constructor
  · have hpos : 0 < (n : ℚ) * p := by
      apply mul_pos _ hp0
      exact_mod_cast Nat.lt_of_lt_of_le Nat.zero_lt_one hn
    exact Int.ceil_pos.mpr hpos
  · rw [Int.ceil_le]
    calc (n : ℚ) * p ≤ (n : ℚ) * 1 :=
        mul_le_mul_of_nonneg_left (le_of_lt hp1) (by positivity)
      _ = ((n : ℤ) : ℚ) := by push_cast; ring

theorem percentileIdx_lt {p : ℚ} (hp0 : 0 < p) (hp1 : p < 1) {n : Nat}
    (hn : 1 ≤ n) : (⌈(n : ℚ) * p⌉).toNat - 1 < n := by
  obtain ⟨hlo, hhi⟩ := percentileCeil_bounds hp0 hp1 hn
  omega

/-- Claim C10: for `Percentile::new(p)` with `0 < p < 1`, after any `n ≥ 1`
samples the computed index `⌈n·p⌉ − 1` satisfies `0 ≤ index < n`, a stored
sample exists at that index, and the `"Sample should exist at expected
index"` panic branch is unreachable: `sample()` always returns an
aggregate. -/
theorem percentile_sample_total (p : ℚ) (hp0 : 0 < p) (hp1 : p < 1)
    (ss : List Sample) (smp : Sample) :
    percentileIndex
        ((percentileSample (percentileRun (percentileNew p) ss) smp).1) =
      some ((⌈((ss.length + 1 : Nat) : ℚ) * p⌉).toNat - 1) ∧
    (⌈((ss.length + 1 : Nat) : ℚ) * p⌉).toNat - 1 < ss.length + 1 ∧
    ((percentileSample (percentileRun (percentileNew p) ss) smp).2).isSome := by
  have hinv : PercInv p ss (percentileRun (percentileNew p) ss) := by
    have h := percInv_run ss (percInv_new p)
    rwa [List.nil_append] at h
  obtain ⟨h1, h2, h3, h4, h5⟩ := hinv
  have hlen : (percentileRun (percentileNew p) ss).samples.length = ss.length :=
    h3.length_eq
  have hnum : (percentileRun (percentileNew p) ss).num_samples = ss.length :=
    h2.trans hlen
  have hidx := percentileIdx_lt hp0 hp1 (n := ss.length + 1) (by omega)
  have hilen : (insertByLatency smp
      (percentileRun (percentileNew p) ss).samples).length = ss.length + 1 := by
    have := (insertByLatency_perm smp
      (percentileRun (percentileNew p) ss).samples).length_eq
    simpa [hlen] using this
  rw [percentileSample_eq]
  have hA : percentileSampleAt
      ⟨(percentileRun (percentileNew p) ss).percentile,
        (percentileRun (percentileNew p) ss).overload.overloaded_or smp.outcome,
        (percentileRun (percentileNew p) ss).num_samples + 1,
        insertByLatency smp (percentileRun (percentileNew p) ss).samples⟩ =
      (insertByLatency smp (percentileRun (percentileNew p) ss).samples).get?
        ((⌈((ss.length + 1 : Nat) : ℚ) * p⌉).toNat - 1) := by
    rw [percentileSampleAt, percentileIndex]
    simp only [hnum, h1]
    rw [if_neg (by omega)]
    rfl
  refine ⟨?_, hidx, ?_⟩
  · rw [percentileIndex]
    simp only [hnum, h1]
    rw [if_neg (by omega)]
  · simp only [hA]
    rw [List.get?_eq_get (by rw [hilen]; exact hidx)]
    simp

/-- Witness for C10: `p = 0.01` over the three samples of the repository's
`percentile_p01` test — the index is 0, the aggregate exists, and equals the
1 ms sample with the pessimistically merged `Overload` outcome. -/
theorem percentile_sample_total_witness :
    (percentileIndex
        ((percentileSample (percentileRun (percentileNew (1/100))
          ([⟨3000000, 5, .overload⟩, ⟨1000000, 1, .success⟩] : List Sample))
          ⟨5000000, 3, .success⟩).1) =
      some ((⌈((([⟨3000000, 5, .overload⟩, ⟨1000000, 1, .success⟩] :
          List Sample).length + 1 : ℕ) : ℚ) * (1/100)⌉).toNat - 1) ∧
    (⌈((([⟨3000000, 5, .overload⟩, ⟨1000000, 1, .success⟩] :
        List Sample).length + 1 : ℕ) : ℚ) * (1/100)⌉).toNat - 1 <
      ([⟨3000000, 5, .overload⟩, ⟨1000000, 1, .success⟩] :
        List Sample).length + 1 ∧
    ((percentileSample (percentileRun (percentileNew (1/100))
        ([⟨3000000, 5, .overload⟩, ⟨1000000, 1, .success⟩] : List Sample))
        ⟨5000000, 3, .success⟩).2).isSome) ∧
    (percentileSample (percentileRun (percentileNew (1/100))
        ([⟨3000000, 5, .overload⟩, ⟨1000000, 1, .success⟩] : List Sample))
        ⟨5000000, 3, .success⟩).2 = some ⟨1000000, 1, .overload⟩ := by
  have hc1 : (⌈(100⁻¹ : ℚ)⌉ : ℤ) = 1 := by
    rw [Int.ceil_eq_iff]
    constructor <;> norm_num
  have hc2 : (⌈(2 * (100⁻¹ : ℚ))⌉ : ℤ) = 1 := by
    rw [Int.ceil_eq_iff]
    constructor <;> norm_num
  have hc2a : (⌈((1 + 1 : ℚ) * (100⁻¹ : ℚ))⌉ : ℤ) = 1 := by
    rw [show (1 + 1 : ℚ) = 2 by norm_num]
    exact hc2
  have hc3 : (⌈(3 * (100⁻¹ : ℚ))⌉ : ℤ) = 1 := by
    rw [Int.ceil_eq_iff]
    constructor <;> norm_num
  have hc3a : (⌈((2 + 1 : ℚ) * (100⁻¹ : ℚ))⌉ : ℤ) = 1 := by
    rw [show (2 + 1 : ℚ) = 3 by norm_num]
    exact hc3
  have s1 : percentileSample (percentileNew (1/100)) ⟨3000000, 5, .overload⟩ =
      (⟨1/100, .overload, 1, [⟨3000000, 5, .overload⟩]⟩,
        some ⟨3000000, 5, .overload⟩) := by
    simp [percentileSample, percentileSampleAt, percentileIndex,
      insertByLatency, percentileNew, Outcome.overloaded_or, hc1]
  have s2 : percentileSample
      ⟨1/100, .overload, 1, [⟨3000000, 5, .overload⟩]⟩ ⟨1000000, 1, .success⟩ =
      (⟨1/100, .overload, 2,
        [⟨1000000, 1, .success⟩, ⟨3000000, 5, .overload⟩]⟩,
        some ⟨1000000, 1, .overload⟩) := by
    simp [percentileSample, percentileSampleAt, percentileIndex,
      insertByLatency, Outcome.overloaded_or, hc2, hc2a]
  have t1 : (percentileSample (percentileNew (1/100))
      ⟨3000000, 5, .overload⟩).1 =
      ⟨1/100, .overload, 1, [⟨3000000, 5, .overload⟩]⟩ := by
    rw [s1]
  have hrun : percentileRun (percentileNew (1/100))
      ([⟨3000000, 5, .overload⟩, ⟨1000000, 1, .success⟩] : List Sample) =
      ⟨1/100, .overload, 2,
        [⟨1000000, 1, .success⟩, ⟨3000000, 5, .overload⟩]⟩ := by
    show (percentileSample (percentileSample (percentileNew (1/100))
      ⟨3000000, 5, .overload⟩).1 ⟨1000000, 1, .success⟩).1 = _
    rw [t1, s2]
  refine ⟨percentile_sample_total (1/100) (by norm_num) (by norm_num)
    ([⟨3000000, 5, .overload⟩, ⟨1000000, 1, .success⟩] : List Sample)
    ⟨5000000, 3, .success⟩, ?_⟩
  rw [hrun]
  simp [percentileSample, percentileSampleAt, percentileIndex,
    insertByLatency, Outcome.overloaded_or, hc3, hc3a]

/-- Claim C8: for the `Percentile(p)` aggregator with `0 < p < 1`, after any
`n ≥ 1` samples the aggregate returned by `sample()` is the input sample at
index `⌈n·p⌉ − 1` in ascending latency order (ties kept in insertion
order), reporting that sample's own latency and in-flight count, and its
outcome is `Overload` iff at least one of the `n` samples was `Overload`. -/
theorem percentile_aggregate (p : ℚ) (hp0 : 0 < p) (hp1 : p < 1)
    (ss : List Sample) (smp : Sample) :
    ∃ (sorted : List Sample)
      (hlen : (⌈((ss.length + 1 : Nat) : ℚ) * p⌉).toNat - 1 < sorted.length)
      (out : Sample),
      (percentileSample (percentileRun (percentileNew p) ss) smp).2 =
        some out ∧
      sorted.Perm (ss ++ [smp]) ∧
      sorted.Pairwise (fun a b => a.latency ≤ b.latency) ∧
      out.latency =
        (sorted.get ⟨(⌈((ss.length + 1 : Nat) : ℚ) * p⌉).toNat - 1,
          hlen⟩).latency ∧
      out.in_flight =
        (sorted.get ⟨(⌈((ss.length + 1 : Nat) : ℚ) * p⌉).toNat - 1,
          hlen⟩).in_flight ∧
      (out.outcome = .overload ↔ ∃ x ∈ ss ++ [smp], x.outcome = .overload) := by
  have hinv : PercInv p ss (percentileRun (percentileNew p) ss) := by
    have h := percInv_run ss (percInv_new p)
    rwa [List.nil_append] at h
  have hinv' := percInv_step hinv smp
  rw [percentileSample_eq] at hinv'
  obtain ⟨h1, h2, h3, h4, h5⟩ := hinv'
  have hinv0 : PercInv p ss (percentileRun (percentileNew p) ss) := by
    have h := percInv_run ss (percInv_new p)
    rwa [List.nil_append] at h
  have hnum : (percentileRun (percentileNew p) ss).num_samples = ss.length :=
    hinv0.2.1.trans hinv0.2.2.1.length_eq
  have hilen : (insertByLatency smp
      (percentileRun (percentileNew p) ss).samples).length = ss.length + 1 := by
    simpa using h2.symm.trans (by simp [hnum])
  have hidx := percentileIdx_lt hp0 hp1 (n := ss.length + 1) (by omega)
  have hlt : (⌈((ss.length + 1 : Nat) : ℚ) * p⌉).toNat - 1 <
      (insertByLatency smp (percentileRun (percentileNew p) ss).samples).length := by
    rw [hilen]; exact hidx
  have hA : percentileSampleAt
      ⟨(percentileRun (percentileNew p) ss).percentile,
        (percentileRun (percentileNew p) ss).overload.overloaded_or smp.outcome,
        (percentileRun (percentileNew p) ss).num_samples + 1,
        insertByLatency smp (percentileRun (percentileNew p) ss).samples⟩ =
      some ((insertByLatency smp
          (percentileRun (percentileNew p) ss).samples).get
        ⟨(⌈((ss.length + 1 : Nat) : ℚ) * p⌉).toNat - 1, hlt⟩) := by
    rw [percentileSampleAt, percentileIndex]
    simp only [hnum, hinv0.1]
    rw [if_neg (by omega)]
    exact List.get?_eq_get hlt
  refine ⟨insertByLatency smp (percentileRun (percentileNew p) ss).samples,
    hlt,
    ⟨((insertByLatency smp (percentileRun (percentileNew p) ss).samples).get
        ⟨(⌈((ss.length + 1 : Nat) : ℚ) * p⌉).toNat - 1, hlt⟩).latency,
      ((insertByLatency smp (percentileRun (percentileNew p) ss).samples).get
        ⟨(⌈((ss.length + 1 : Nat) : ℚ) * p⌉).toNat - 1, hlt⟩).in_flight,
      (percentileRun (percentileNew p) ss).overload.overloaded_or smp.outcome⟩,
    ?_, h3, h4, rfl, rfl, ?_⟩
  · rw [percentileSample_eq]
    simp only [hA]
    rfl
  · exact h5

/-- Witness for C8: `p = 0.99` over the three samples of the repository's
`percentile_p99` test (spec scenario 4); separately, the aggregate
evaluates concretely to the 5 ms sample's latency and in-flight count with
the merged `Overload` outcome. -/
theorem percentile_aggregate_witness :
    (∃ (sorted : List Sample)
      (hlen : (⌈((([⟨3000000, 5, .overload⟩, ⟨1000000, 1, .success⟩] :
          List Sample).length + 1 : ℕ) : ℚ) * (99/100)⌉).toNat - 1 <
        sorted.length)
      (out : Sample),
      (percentileSample (percentileRun (percentileNew (99/100))
          ([⟨3000000, 5, .overload⟩, ⟨1000000, 1, .success⟩] : List Sample))
          ⟨5000000, 3, .success⟩).2 = some out ∧
      sorted.Perm (([⟨3000000, 5, .overload⟩, ⟨1000000, 1, .success⟩] :
        List Sample) ++ [⟨5000000, 3, .success⟩]) ∧
      sorted.Pairwise (fun a b => a.latency ≤ b.latency) ∧
      out.latency = (sorted.get
        ⟨(⌈((([⟨3000000, 5, .overload⟩, ⟨1000000, 1, .success⟩] :
          List Sample).length + 1 : ℕ) : ℚ) * (99/100)⌉).toNat - 1,
          hlen⟩).latency ∧
      out.in_flight = (sorted.get
        ⟨(⌈((([⟨3000000, 5, .overload⟩, ⟨1000000, 1, .success⟩] :
          List Sample).length + 1 : ℕ) : ℚ) * (99/100)⌉).toNat - 1,
          hlen⟩).in_flight ∧
      (out.outcome = .overload ↔
        ∃ x ∈ ([⟨3000000, 5, .overload⟩, ⟨1000000, 1, .success⟩] :
          List Sample) ++ [⟨5000000, 3, .success⟩],
          x.outcome = .overload)) ∧
    (percentileSample (percentileRun (percentileNew (99/100))
        ([⟨3000000, 5, .overload⟩, ⟨1000000, 1, .success⟩] : List Sample))
        ⟨5000000, 3, .success⟩).2 = some ⟨5000000, 3, .overload⟩ := by
  have hc1 : (⌈(99 / 100 : ℚ)⌉ : ℤ) = 1 := by
    rw [Int.ceil_eq_iff]
    constructor <;> norm_num
  have hc2 : (⌈(2 * (99 / 100 : ℚ))⌉ : ℤ) = 2 := by
    rw [Int.ceil_eq_iff]
    constructor <;> norm_num
  have hc2a : (⌈((1 + 1 : ℚ) * (99 / 100 : ℚ))⌉ : ℤ) = 2 := by
    rw [show (1 + 1 : ℚ) = 2 by norm_num]
    exact hc2
  have hc3 : (⌈(3 * (99 / 100 : ℚ))⌉ : ℤ) = 3 := by
    rw [Int.ceil_eq_iff]
    constructor <;> norm_num
  have hc3a : (⌈((2 + 1 : ℚ) * (99 / 100 : ℚ))⌉ : ℤ) = 3 := by
    rw [show (2 + 1 : ℚ) = 3 by norm_num]
    exact hc3
  have s1 : percentileSample (percentileNew (99/100)) ⟨3000000, 5, .overload⟩ =
      (⟨99/100, .overload, 1, [⟨3000000, 5, .overload⟩]⟩,
        some ⟨3000000, 5, .overload⟩) := by
    simp [percentileSample, percentileSampleAt, percentileIndex,
      insertByLatency, percentileNew, Outcome.overloaded_or, hc1]
  have s2 : percentileSample
      ⟨99/100, .overload, 1, [⟨3000000, 5, .overload⟩]⟩ ⟨1000000, 1, .success⟩ =
      (⟨99/100, .overload, 2,
        [⟨1000000, 1, .success⟩, ⟨3000000, 5, .overload⟩]⟩,
        some ⟨3000000, 5, .overload⟩) := by
    simp [percentileSample, percentileSampleAt, percentileIndex,
      insertByLatency, Outcome.overloaded_or, hc2, hc2a]
  have t1 : (percentileSample (percentileNew (99/100))
      ⟨3000000, 5, .overload⟩).1 =
      ⟨99/100, .overload, 1, [⟨3000000, 5, .overload⟩]⟩ := by
    rw [s1]
  have hrun : percentileRun (percentileNew (99/100))
      ([⟨3000000, 5, .overload⟩, ⟨1000000, 1, .success⟩] : List Sample) =
      ⟨99/100, .overload, 2,
        [⟨1000000, 1, .success⟩, ⟨3000000, 5, .overload⟩]⟩ := by
    show (percentileSample (percentileSample (percentileNew (99/100))
      ⟨3000000, 5, .overload⟩).1 ⟨1000000, 1, .success⟩).1 = _
    rw [t1, s2]
  refine ⟨percentile_aggregate (99/100) (by norm_num) (by norm_num)
    ([⟨3000000, 5, .overload⟩, ⟨1000000, 1, .success⟩] : List Sample)
    ⟨5000000, 3, .success⟩, ?_⟩
  rw [hrun]
  simp [percentileSample, percentileSampleAt, percentileIndex,
    insertByLatency, Outcome.overloaded_or, hc3, hc3a]

/-- Claim C9 (code bug): `PartitionState::spare` computes
`(partition_limit - in_flight)` with an unchecked `usize` subtraction before
its `saturating_sub(buffer)`.  In the reachable state where partition 0 has
borrowed beyond its partition limit (in-flight 3 > limit 2, reached by four
`try_acquire` calls on partition 0 of a two-partition `Fixed(3)` gate with
equal weights), the next `try_acquire` underflows — a panic in debug builds,
a wrap to a huge spare in release builds — instead of computing the claimed
`Σ max(0, partition_limit − partition_in_flight − buffer)`, which is 1
there. -/
theorem partitioned_spare_underflow :
    partTryAcquire 3 [1/2, 1/2] ⟨[0, 0], 3⟩ 0 = some (⟨[1, 0], 2⟩, true) ∧
    partTryAcquire 3 [1/2, 1/2] ⟨[1, 0], 2⟩ 0 = some (⟨[2, 0], 1⟩, true) ∧
    partTryAcquire 3 [1/2, 1/2] ⟨[2, 0], 1⟩ 0 = some (⟨[3, 0], 0⟩, true) ∧
    partTryAcquire 3 [1/2, 1/2] ⟨[3, 0], 0⟩ 0 = none ∧
    spareSpec 3 [(1/2, 3), (1/2, 0)] = 1 := by
  have hfl : fractional_limit 3 (2⁻¹ : ℚ) = 2 := by
    unfold fractional_limit
    rw [show ((3 : ℕ) : ℚ) * (2⁻¹ : ℚ) = 3/2 by norm_num]
    rw [show (⌈(3 : ℚ)/2⌉ : ℤ) = 2 by
      rw [Int.ceil_eq_iff]
      constructor <;> norm_num]
    rfl
  have hbuf : (⌈((2 : ℕ) : ℚ) * BUFFER_FRACTION⌉ : ℤ) = 1 := by
    rw [show ((2 : ℕ) : ℚ) * BUFFER_FRACTION = 1/5 by norm_num [BUFFER_FRACTION]]
    rw [Int.ceil_eq_iff]
    constructor <;> norm_num
  have hbufa : (⌈(2 * BUFFER_FRACTION : ℚ)⌉ : ℤ) = 1 := by
    rw [show (2 * BUFFER_FRACTION : ℚ) = 1/5 by norm_num [BUFFER_FRACTION]]
    rw [Int.ceil_eq_iff]
    constructor <;> norm_num
  have hsp0 : partitionSpare 3 (2⁻¹ : ℚ) 0 = some 1 := by
    simp [partitionSpare, hfl, hbuf, hbufa]
  have hsp2 : partitionSpare 3 (2⁻¹ : ℚ) 2 = some 0 := by
    simp [partitionSpare, hfl, hbuf, hbufa]
  have hsp3 : partitionSpare 3 (2⁻¹ : ℚ) 3 = none := by
    simp [partitionSpare, hfl]
  refine ⟨?_, ?_, ?_, ?_, ?_⟩
  · simp [partTryAcquire, hfl]
  · simp [partTryAcquire, hfl]
  · simp [partTryAcquire, schedulerSpare, hfl, hsp0, hsp2]
  · simp [partTryAcquire, schedulerSpare, hfl, hsp0, hsp3]
  · simp [spareSpec, hfl, hbuf, hbufa]

end Squeeze
